import Mathlib

/-!
Verification development for the mentat-code-mini agent.

The embedding covers the two core subsystems of the program:

* the filesystem sandbox (`src/tools/path_validator.rs`) together with the
  two file tools (`src/tools/read_file.rs`, `src/tools/write_file.rs`) and
  the tool registry (`src/tools/mod.rs`);
* the multi-turn tool-use conversation loop
  (`ChatClient::send_message` in `src/main.rs`).

Modelling conventions:

* Paths are parsed into component lists following the semantics of
  `std::path::Path::components` on Unix: the string is split on `/`, empty
  components and `.` components are dropped (Rust keeps a leading `.`
  component, but it is transparent to join, canonicalisation, `file_name`,
  `parent` and existence checks, so it is dropped here), and `..` becomes
  the parent-directory component.
* The filesystem is a finite, symlink-free map: a list of (absolute path,
  content) file entries plus a list of absolute directory paths, each
  absolute path being the list of its components from the root.  The root
  directory `[]` always exists.  Because the model is symlink-free,
  `fs::canonicalize` of an existing path is the path itself, and it fails
  on paths that do not exist, exactly as the real call does.
* Machine strings are Lean `String`s; byte-level operations of the source
  (`str::len`, byte slicing `&s[..n]`) are modelled through the UTF-8 byte
  sizes of the characters, and a byte slice whose end is not a character
  boundary is `none`, representing the Rust panic.
* OS error message details are abstracted as fixed strings; the
  `serde_json` error text in the invalid-input branches of the tools is
  abstracted likewise.  Stdout/stderr printing is modelled only where a
  claim depends on it (the display list of processed blocks).
-/

set_option maxRecDepth 20000

namespace Mentat

/-! ## Path strings and components -/

/-- One path component as classified by `Path::components`: a normal name or
the parent-directory marker `..`.  `.` components are dropped during parsing
(see the module conventions above). -/
inductive Comp
  | normal (s : String)
  | parentDir
deriving DecidableEq

/-- Split a character list on the separator `/`. -/
def splitSlash (cs : List Char) : List (List Char) :=
  match cs with
  | [] => [[]]
  | c :: rest =>
    let r := splitSlash rest
    if c = '/' then [] :: r
    else
      match r with
      | [] => [[c]]
      | t :: ts => (c :: t) :: ts

/-- A parsed path: whether it is absolute (starts with `/` on Unix), and its
components in order. -/
structure RPath where
  absolute : Bool
  comps : List Comp
deriving DecidableEq

/-- Classify one raw piece of a path string as a component. -/
def parseComp (t : List Char) : Comp :=
  if t = ['.', '.'] then .parentDir else .normal (String.mk t)

/-- Parse a path string, mirroring `Path::new` plus `components()`
normalisation: split on `/`, drop empty and `.` pieces, keep `..` as the
parent-directory component.  Absoluteness is a leading `/`. -/
def parsePath (s : String) : RPath :=
  { absolute := match s.data with | '/' :: _ => true | _ => false
    comps := ((splitSlash s.data).filter
        (fun t => !(t.isEmpty) && !(t == ['.']))).map parseComp }

/-- Test for the parent-directory component, mirroring
`matches!(c, Component::ParentDir)`. -/
def isParentDir : Comp → Bool
  | .parentDir => true
  | _ => false

/-- The structural component check of `PathValidator::contains_parent_dir`:
`path.components().any(|c| matches!(c, Component::ParentDir))`. -/
def contains_parent_dir (p : RPath) : Bool :=
  p.comps.any isParentDir

/-- Substring search over character lists. -/
def hasSubList (pat : List Char) : List Char → Bool
  | [] => pat.isEmpty
  | c :: rest => pat.isPrefixOf (c :: rest) || hasSubList pat rest

/-- The Rust `str::contains` substring test, used by the write tool for its
textual `..` check. -/
def strContainsSub (s pat : String) : Bool :=
  hasSubList pat.data s.data

/-- Append parsed components onto an absolute base path, resolving `..`
lexically (the model is symlink-free, so lexical resolution agrees with the
OS).  On the paths reaching filesystem operations in this program, `..`
components have already been rejected, so this is plain concatenation
there. -/
def normAppend : List String → List Comp → List String
  | base, [] => base
  | base, .normal s :: rest => normAppend (base ++ [s]) rest
  | base, .parentDir :: rest => normAppend base.dropLast rest

/-- Names of the normal components of a component list. -/
def namesOf (cs : List Comp) : List String :=
  cs.filterMap (fun c => match c with | .normal s => some s | .parentDir => none)

/-- Resolve a parsed path against a current directory: an absolute path
ignores the base directory, a relative one is appended to it.  This is the
OS resolution that `fs::write`, `fs::read_to_string` and `Path::join`
perform. -/
def resolveAbs (cwd : List String) (p : RPath) : List String :=
  normAppend (if p.absolute then [] else cwd) p.comps

/-! ## Byte-level string operations -/

/-- Byte length of a string, as Rust `str::len`. -/
def utf8Len (s : String) : Nat :=
  s.data.foldl (fun n c => n + c.utf8Size) 0

/-- Take exactly `n` UTF-8 bytes from a character list: `some` of the taken
characters when byte offset `n` is a character boundary, `none` otherwise.
`none` models the Rust panic of slicing `&s[..n]` at a non-boundary. -/
def takeBytes : List Char → Nat → Option (List Char)
  | _, 0 => some []
  | [], _ + 1 => none
  | c :: cs, n + 1 =>
    if c.utf8Size ≤ n + 1 then (takeBytes cs (n + 1 - c.utf8Size)).map (fun l => c :: l)
    else none

/-- The byte slice `&s[..min(s.len(), cap)]` used when printing a prefix of
a string: `none` is the panic on a non-boundary cut. -/
def displaySlice (s : String) (cap : Nat) : Option String :=
  (takeBytes s.data (min (utf8Len s) cap)).map String.mk

/-- The display form of a thinking block computed in `send_message`: when
the text is longer than 200 bytes, the first 200 bytes followed by `...`
(`none` models the panic when byte 200 is not a character boundary),
otherwise the text unchanged. -/
def thinkingDisplay (s : String) : Option String :=
  if utf8Len s > 200 then (takeBytes s.data 200).map (fun cs => String.mk cs ++ "...")
  else some s

/-! ## The filesystem model -/

/-- A finite symlink-free filesystem: file entries (absolute component path,
content) and absolute directory paths.  The root `[]` always exists. -/
structure FS where
  files : List (List String × String)
  dirs : List (List String)
deriving DecidableEq

/-- Whether `q` is a file of the filesystem. -/
def isFile (fs : FS) (q : List String) : Bool :=
  fs.files.any (fun kv => kv.1 == q)

/-- Whether `q` is a directory of the filesystem; the root `[]` always is. -/
def isDir (fs : FS) (q : List String) : Bool :=
  q.isEmpty || fs.dirs.contains q

/-- Existence check, as `Path::exists`. -/
def pathExists (fs : FS) (q : List String) : Bool :=
  isFile fs q || isDir fs q

/-- `fs::canonicalize` in the symlink-free model: an existing path is its
own canonical form, a missing path fails to canonicalize. -/
def canonicalizeFS (fs : FS) (q : List String) : Option (List String) :=
  if pathExists fs q then some q else none

/-- All nonempty prefixes of an absolute path, shortest first. -/
def prefixesOf (q : List String) : List (List String) :=
  (List.range q.length).map (fun i => q.take (i + 1))

/-- `fs::create_dir_all`: creates every missing ancestor directory of `q`,
failing when some element of the ancestor chain is an existing file. -/
def create_dir_all (fs : FS) (q : List String) : Option FS :=
  if (prefixesOf q).any (fun d => isFile fs d) then none
  else some { fs with dirs := fs.dirs ++ (prefixesOf q).filter (fun d => !(fs.dirs.contains d)) }

/-- `fs::write`: fails on a directory, otherwise creates or overwrites the
file. -/
def writeBytes (fs : FS) (q : List String) (c : String) : Option FS :=
  if isDir fs q then none
  else some { fs with files := (q, c) :: fs.files.filter (fun kv => !(kv.1 == q)) }

/-- `fs::read_to_string`: fails on directories and missing files. -/
def read_to_string (fs : FS) (q : List String) : Option String :=
  if isDir fs q then none
  else (fs.files.find? (fun kv => kv.1 == q)).map (fun kv => kv.2)

/-! ## PathValidator -/

/-- The failure kinds of path validation, as in `path_validator.rs`. -/
inductive PathValidationError
  | absolutePathNotAllowed
  | pathTraversalDetected
  | pathNotFound (path : String)
  | workspaceDirError (msg : String)
  | canonicalizationFailed (msg : String)
deriving DecidableEq

/-- The `Display` implementation of `PathValidationError`. -/
def errDisplay : PathValidationError → String
  | .absolutePathNotAllowed => "Absolute paths are not allowed"
  | .pathTraversalDetected => "Path traversal not allowed"
  | .pathNotFound p => "Path not found: " ++ p
  | .workspaceDirError m => "Failed to get workspace directory: " ++ m
  | .canonicalizationFailed m => "Invalid path: " ++ m

/-- Fuel-indexed walk of `find_nearest_existing_ancestor`: each step drops
the last component, so fuel `p.length + 1` always suffices; the fuel-zero
fallback mirrors the source fallback to the workspace root. -/
def nearestAux (fs : FS) (root : List String) : Nat → List String → List String
  | 0, _ => root
  | n + 1, p =>
    if pathExists fs p then p
    else if p.isEmpty then root
    else nearestAux fs root n p.dropLast

/-- `PathValidator::find_nearest_existing_ancestor`: walk up from `p` until
an existing path is found, falling back to the workspace root when the walk
runs out of parents. -/
def find_nearest_existing_ancestor (fs : FS) (root : List String) (p : List String) :
    List String :=
  nearestAux fs root (p.length + 1) p

/-- `PathValidator::canonicalize_nonexistent_path`: when the full path does
not exist, canonicalize the nearest existing parent and re-append the file
name; when the parent does not exist either, rebuild the path from the
workspace root and the relative parent of the request. -/
def canonicalize_nonexistent_path (root : List String) (fs : FS)
    (full : List String) (requested : RPath) :
    Except PathValidationError (List String) :=
  match full.getLast? with
  | none => .ok full
  | some f =>
    if pathExists fs full.dropLast then
      match canonicalizeFS fs full.dropLast with
      | some cp => .ok (cp ++ [f])
      | none => .error (.canonicalizationFailed "canonicalize")
    else
      .ok (resolveAbs root { absolute := false, comps := requested.comps.dropLast } ++ [f])

/-- `PathValidator::canonicalize_path`: canonicalize an existing path
directly, delegate a missing one to the nonexistent-path handler. -/
def canonicalize_path (root : List String) (fs : FS)
    (full : List String) (requested : RPath) :
    Except PathValidationError (List String) :=
  if pathExists fs full then
    match canonicalizeFS fs full with
    | some c => .ok c
    | none => .error (.canonicalizationFailed "canonicalize")
  else canonicalize_nonexistent_path root fs full requested

/-- `PathValidator::get_canonical_workspace`. -/
def get_canonical_workspace (root : List String) (fs : FS) :
    Except PathValidationError (List String) :=
  match canonicalizeFS fs root with
  | some c => .ok c
  | none => .error (.workspaceDirError "canonicalize")

/-- `PathValidator::is_within_workspace`: an existing path is checked by
prefix directly; a missing one through its nearest existing ancestor. -/
def is_within_workspace (fs : FS) (root : List String)
    (path ws : List String) : Bool :=
  if pathExists fs path then ws.isPrefixOf path
  else
    match canonicalizeFS fs (find_nearest_existing_ancestor fs root path) with
    | some c => ws.isPrefixOf c
    | none => false

/-- `PathValidator::validate_path`: reject absolute paths, reject paths with
a `..` component, join onto the workspace root, canonicalize, and require
the canonical path to lie inside the canonical workspace.  Returns the
joined (pre-canonicalisation) path on success, as the source does. -/
def validate_path (root : List String) (fs : FS) (path : String) :
    Except PathValidationError (List String) :=
  let requested := parsePath path
  if requested.absolute then .error .absolutePathNotAllowed
  else if contains_parent_dir requested then .error .pathTraversalDetected
  else
    let full_path := resolveAbs root requested
    match canonicalize_path root fs full_path requested with
    | .error e => .error e
    | .ok canonical_path =>
      match get_canonical_workspace root fs with
      | .error e => .error e
      | .ok canonical_workspace =>
        if is_within_workspace fs root canonical_path canonical_workspace then .ok full_path
        else .error .pathTraversalDetected

/-- `PathValidator::validate_for_read`: validate, then additionally require
the validated path to exist. -/
def validate_for_read (root : List String) (fs : FS) (path : String) :
    Except PathValidationError (List String) :=
  match validate_path root fs path with
  | .error e => .error e
  | .ok validated =>
    if !(pathExists fs validated) then .error (.pathNotFound path)
    else .ok validated

/-- `PathValidator::validate_for_write`: identical to `validate_path`, no
existence requirement. -/
def validate_for_write (root : List String) (fs : FS) (path : String) :
    Except PathValidationError (List String) :=
  validate_path root fs path

/-! ## File tools -/

/-- Input of the read_file tool. -/
structure ReadFileInput where
  file_path : String
deriving DecidableEq

/-- Output of the read_file tool. -/
structure ReadFileOutput where
  success : Bool
  content : Option String
  error : Option String
deriving DecidableEq

/-- Input of the write_file tool. -/
structure WriteFileInput where
  file_path : String
  content : String
deriving DecidableEq

/-- Output of the write_file tool. -/
structure WriteFileOutput where
  success : Bool
  message : Option String
  error : Option String
deriving DecidableEq

/-- `execute_read_file` of `read_file.rs`.  The function constructs a fresh
`PathValidator::new()` on each call, so the validator root is the current
working directory of the process at call time; `cwd` is that directory. -/
def execute_read_file (cwd : List String) (fs : FS) (input : ReadFileInput) :
    ReadFileOutput :=
  match validate_for_read cwd fs input.file_path with
  | .error e => ⟨false, none, some (errDisplay e)⟩
  | .ok validated =>
    match read_to_string fs validated with
    | some c => ⟨true, some c, none⟩
    | none => ⟨false, none, some "Failed to read file: io error"⟩

/-- `execute_write_file` of `write_file.rs`.  Note what the source does: it
never constructs a `PathValidator`; the only check is the textual substring
test `input.file_path.contains("..")`, after which parent directories are
created and the file written at the path resolved against the live current
working directory `cwd`. -/
def execute_write_file (cwd : List String) (fs : FS) (input : WriteFileInput) :
    WriteFileOutput × FS :=
  if strContainsSub input.file_path ".." then
    (⟨false, none, some "Path traversal not allowed"⟩, fs)
  else
    let rp := parsePath input.file_path
    let target := resolveAbs cwd rp
    let hasParent := if rp.absolute then !rp.comps.isEmpty else decide (2 ≤ rp.comps.length)
    match (if hasParent then create_dir_all fs target.dropLast else some fs) with
    | none => (⟨false, none, some "Failed to create directory: io error"⟩, fs)
    | some fs1 =>
      match writeBytes fs1 target input.content with
      | some fs2 =>
        (⟨true,
          some ("Successfully wrote " ++ toString (utf8Len input.content)
            ++ " bytes to " ++ input.file_path),
          none⟩, fs2)
      | none => (⟨false, none, some "Failed to write file: io error"⟩, fs1)

/-! ## JSON values and the tool registry -/

/-- A JSON value, as `serde_json::Value`. -/
inductive JsonV
  | null
  | boolean (b : Bool)
  | num (n : Int)
  | str (s : String)
  | arr (elems : List JsonV)
  | obj (fields : List (String × JsonV))

/-- Field lookup on a JSON object, as `Value::get`. -/
def getField (v : JsonV) (k : String) : Option JsonV :=
  match v with
  | .obj fields => (fields.find? (fun kv => kv.1 == k)).map (fun kv => kv.2)
  | _ => none

/-- String extraction, as `Value::as_str`. -/
def asStr : JsonV → Option String
  | .str s => some s
  | _ => none

/-- JSON string escaping for the common escapes; rarer control-character
escapes of serde_json are not exercised by any claim. -/
def jsonEscapeChar (c : Char) : String :=
  if c = '"' then "\\\""
  else if c = '\\' then "\\\\"
  else if c = '\n' then "\\n"
  else if c = '\r' then "\\r"
  else if c = '\t' then "\\t"
  else String.mk [c]

/-- Escape a whole string. -/
def jsonEscape (s : String) : String :=
  s.data.foldl (fun acc c => acc ++ jsonEscapeChar c) ""

/-- Serialize an optional string field, `null` when absent. -/
def jsonStrOrNull : Option String → String
  | some s => "\"" ++ jsonEscape s ++ "\""
  | none => "null"

/-- serde serialisation of `ReadFileOutput` (fields in declaration order). -/
def serializeReadOutput (o : ReadFileOutput) : String :=
  "\x7b\"success\":" ++ (if o.success then "true" else "false")
    ++ ",\"content\":" ++ jsonStrOrNull o.content
    ++ ",\"error\":" ++ jsonStrOrNull o.error ++ "\x7d"

/-- serde serialisation of `WriteFileOutput` (fields in declaration order). -/
def serializeWriteOutput (o : WriteFileOutput) : String :=
  "\x7b\"success\":" ++ (if o.success then "true" else "false")
    ++ ",\"message\":" ++ jsonStrOrNull o.message
    ++ ",\"error\":" ++ jsonStrOrNull o.error ++ "\x7d"

/-- The closed sum of the registered tool implementations. -/
inductive ToolKind
  | readFileTool
  | writeFileTool
deriving DecidableEq

/-- `Tool::name`. -/
def toolNameOf : ToolKind → String
  | .readFileTool => "read_file"
  | .writeFileTool => "write_file"

/-- `Tool::execute` for each tool: deserialize the input (failure becomes a
structured invalid-input payload), run the tool, serialize the output.  The
filesystem is threaded explicitly; the read tool leaves it unchanged. -/
def toolExecute (t : ToolKind) (cwd : List String) (fs : FS) (input : JsonV) :
    String × FS :=
  match t with
  | .readFileTool =>
    match (getField input "file_path").bind asStr with
    | some fp => (serializeReadOutput (execute_read_file cwd fs ⟨fp⟩), fs)
    | none =>
      (serializeReadOutput ⟨false, none, some "Invalid input: deserialization error"⟩, fs)
  | .writeFileTool =>
    match (getField input "file_path").bind asStr, (getField input "content").bind asStr with
    | some fp, some c =>
      let r := execute_write_file cwd fs ⟨fp, c⟩
      (serializeWriteOutput r.1, r.2)
    | _, _ =>
      (serializeWriteOutput ⟨false, none, some "Invalid input: deserialization error"⟩, fs)

/-- The registry contents after `ToolRegistry::with_builtins()`: a mapping
from tool name to tool. -/
def builtins : List (String × ToolKind) :=
  [("read_file", .readFileTool), ("write_file", .writeFileTool)]

/-- The unknown-tool payload of `ToolRegistry::execute`:
`format!("\x7b\"error\": \"Unknown tool: \x7b\x7d\"\x7d", name)`. -/
def unknownToolPayload (name : String) : String :=
  "\x7b\"error\": \"Unknown tool: " ++ name ++ "\"\x7d"

/-- `ToolRegistry::execute`: dispatch by name, with the structured
unknown-tool payload when the name is not registered.  Total by
construction: every branch returns a payload string. -/
def registryExecute (reg : List (String × ToolKind)) (cwd : List String)
    (fs : FS) (name : String) (input : JsonV) : String × FS :=
  match (reg.find? (fun kv => kv.1 == name)).map (fun kv => kv.2) with
  | some t => toolExecute t cwd fs input
  | none => (unknownToolPayload name, fs)

/-! ## The conversation loop -/

/-- A content block of a model message, tagged as in the wire format.
Blocks with an unrecognized or missing `type` are `other`.  Missing `id`,
`name` or `input` fields of a tool_use block are the `unwrap_or` defaults
of the source: empty strings and `Null`. -/
inductive ContentBlock
  | text (text : String)
  | thinking (thinking : String)
  | toolUse (id : String) (name : String) (input : JsonV)
  | toolResult (tool_use_id : String) (content : String)
  | other (ty : String)

/-- Message content: a plain string or a block sequence. -/
inductive MessageContent
  | text (s : String)
  | blocks (bs : List ContentBlock)

/-- One history message. -/
structure Message where
  role : String
  content : MessageContent

/-- `create_tool_result` of `main.rs`. -/
def create_tool_result (tool_use_id : String) (content : String) : ContentBlock :=
  .toolResult tool_use_id content

/-- The user message appended by `send_message` for the user input. -/
def userTextMsg (s : String) : Message := ⟨"user", .text s⟩

/-- The assistant message storing a response verbatim. -/
def assistantMsg (bs : List ContentBlock) : Message := ⟨"assistant", .blocks bs⟩

/-- The tool-result user message of one round. -/
def toolResultsMsg (rs : List ContentBlock) : Message := ⟨"user", .blocks rs⟩

/-- A tool executor with explicit state (the registry execute with the
filesystem threaded through). -/
def ToolExec (σ : Type) : Type := σ → String → JsonV → String × σ

/-- Accumulator of the block-processing loop of `send_message`: the tool
state, the display lines printed so far, the pending tool results, and the
has_tool_use flag. -/
structure BlockAcc (σ : Type) where
  st : σ
  displays : List String
  toolResults : List ContentBlock
  hasToolUse : Bool

/-- One iteration of the block loop.  `none` is a panic: the thinking
display slice at a non-boundary byte aborts the whole call. -/
def processStep (ex : ToolExec σ) (acc : BlockAcc σ) (b : ContentBlock) :
    Option (BlockAcc σ) :=
  match b with
  | .text t => some { acc with displays := acc.displays ++ [t] }
  | .thinking t =>
    match thinkingDisplay t with
    | some d => some { acc with displays := acc.displays ++ [d] }
    | none => none
  | .toolUse id name input =>
    let r := ex acc.st name input
    some { acc with
      st := r.2
      toolResults := acc.toolResults ++ [create_tool_result id r.1]
      hasToolUse := true }
  | .toolResult _ _ => some acc
  | .other _ => some acc

/-- The block loop over one model response, in array order, carried by the
accumulator; `none` aborts the loop (a panic). -/
def processBlocksGo (ex : ToolExec σ) (acc : BlockAcc σ) :
    List ContentBlock → Option (BlockAcc σ)
  | [] => some acc
  | b :: rest =>
    match processStep ex acc b with
    | none => none
    | some acc2 => processBlocksGo ex acc2 rest

/-- The block loop over one model response, started from the empty
accumulator of `send_message`. -/
def processBlocks (ex : ToolExec σ) (s : σ) (blocks : List ContentBlock) :
    Option (BlockAcc σ) :=
  processBlocksGo ex ⟨s, [], [], false⟩ blocks

/-- One outcome of the blocking model-service call, at the abstraction level
of the collaborator contract: a transport failure (no response body
obtained), a response with a non-success status, a success-status response
whose body fails to parse, or a parsed response with its content blocks. -/
inductive ModelOutcome
  | transportErr
  | httpErr (status : Nat) (errorText : String)
  | malformed (body : String)
  | success (content : List ContentBlock)

/-- Result of `send_message`: normal return, a propagated error (the `?`
operator on a transport failure), a panic, or an exhausted response script
(the call would block for another response). -/
inductive SendResult
  | ok (history : List Message)
  | errProp (history : List Message)
  | crashed (history : List Message)
  | outOfScript (history : List Message)

/-- The tool-use loop of `ChatClient::send_message`, driven by a script of
model outcomes (one per service call).  Returns the result, the final tool
state and the number of model-service calls made.  Mirrors the source: a
transport failure propagates via `?` with no rollback; a non-success status
pops the last message and returns Ok; a malformed body first slices the
first min(len, 500) bytes of the raw body for the debug print (a panic at a
non-boundary), then pops and returns Ok; a parsed response is processed,
the assistant message is appended, and the loop either ends (no tool use)
or appends the tool-result message and calls again. -/
def sendLoop (ex : ToolExec σ) :
    List ModelOutcome → σ → List Message → SendResult × σ × Nat
  | [], s, hist => (.outOfScript hist, s, 0)
  | o :: rest, s, hist =>
    match o with
    | .transportErr => (.errProp hist, s, 1)
    | .httpErr _ _ => (.ok hist.dropLast, s, 1)
    | .malformed body =>
      match displaySlice body 500 with
      | none => (.crashed hist, s, 1)
      | some _ => (.ok hist.dropLast, s, 1)
    | .success blocks =>
      match processBlocks ex s blocks with
      | none => (.crashed hist, s, 1)
      | some acc =>
        let hist1 := hist ++ [assistantMsg blocks]
        if acc.hasToolUse then
          let t := sendLoop ex rest acc.st (hist1 ++ [toolResultsMsg acc.toolResults])
          (t.1, t.2.1, t.2.2 + 1)
        else (.ok hist1, acc.st, 1)

/-- `ChatClient::send_message`: append the user message, then run the
tool-use loop. -/
def send_message (ex : ToolExec σ) (script : List ModelOutcome) (s : σ)
    (hist : List Message) (userInput : String) : SendResult × σ × Nat :=
  sendLoop ex script s (hist ++ [userTextMsg userInput])

/-! ## Closed forms used by the loop theorems -/

/-- Whether a block is a tool_use block. -/
def isToolUseB : ContentBlock → Bool
  | .toolUse _ _ _ => true
  | _ => false

/-- The id of a tool_use block. -/
def useIdOf : ContentBlock → Option String
  | .toolUse id _ _ => some id
  | _ => none

/-- The correlation id of a tool_result block. -/
def resultIdOf : ContentBlock → String
  | .toolResult id _ => id
  | _ => ""

/-- Closed form of the tool results produced by one response: one
tool_result per tool_use block, in block order, threading the tool state. -/
def toolResultsOf (ex : ToolExec σ) : σ → List ContentBlock → List ContentBlock
  | _, [] => []
  | s, .toolUse id name input :: rest =>
    let r := ex s name input
    create_tool_result id r.1 :: toolResultsOf ex r.2 rest
  | s, _ :: rest => toolResultsOf ex s rest

/-- Closed form of the tool state after processing one response. -/
def stateAfter (ex : ToolExec σ) : σ → List ContentBlock → σ
  | s, [] => s
  | s, .toolUse _ name input :: rest => stateAfter ex (ex s name input).2 rest
  | s, _ :: rest => stateAfter ex s rest

/-- Closed form of the display lines of one response. -/
def displaysOf : List ContentBlock → List String
  | [] => []
  | .text t :: rest => t :: displaysOf rest
  | .thinking t :: rest => (thinkingDisplay t).getD "" :: displaysOf rest
  | _ :: rest => displaysOf rest

/-- Panic freedom of one response: every thinking block has a well-defined
display slice. -/
def panicFree (blocks : List ContentBlock) : Bool :=
  blocks.all (fun b => match b with
    | .thinking t => (thinkingDisplay t).isSome
    | _ => true)

/-- The two assistant/tool-result messages appended per completed tool-use
round, for a list of per-round response blocks. -/
def okRounds (ex : ToolExec σ) : σ → List (List ContentBlock) → List Message
  | _, [] => []
  | s, bs :: rest =>
    assistantMsg bs :: toolResultsMsg (toolResultsOf ex s bs) ::
      okRounds ex (stateAfter ex s bs) rest

/-- The tool state after a list of completed rounds. -/
def stateAfterRounds (ex : ToolExec σ) : σ → List (List ContentBlock) → σ
  | s, [] => s
  | s, bs :: rest => stateAfterRounds ex (stateAfter ex s bs) rest

/-- Every user message is immediately followed by an assistant message: the
no-orphaned-user-turn property of a message list. -/
def usersAnswered : List Message → Bool
  | [] => true
  | m :: rest =>
    if m.role == "user" then
      match rest with
      | [] => false
      | r :: _ => r.role == "assistant" && usersAnswered rest
    else usersAnswered rest

/-- The failing outcomes for which the source rolls back and returns Ok: a
non-success status, or a malformed body whose 500-byte debug slice lands on
a character boundary. -/
def failRollsBack : ModelOutcome → Bool
  | .httpErr _ _ => true
  | .malformed body => (displaySlice body 500).isSome
  | _ => false

/-! ## Concrete fixtures for witnesses and counterexamples -/

/-- A trivial tool executor over a unit state, used to instantiate loop
theorems at concrete inputs. -/
def exUnit : ToolExec Unit := fun s _ _ => ("ok", s)

/-- A thinking text of 67 CJK characters: 201 UTF-8 bytes, so it is longer
than 200 bytes and byte 200 falls inside a character. -/
def cjk67 : String := String.mk (List.replicate 67 '中')

/-- A raw body of 167 CJK characters: 501 UTF-8 bytes, so the 500-byte
debug slice of the malformed-body branch cuts inside a character. -/
def cjk167 : String := String.mk (List.replicate 167 '中')

/-! ## Helper lemmas on paths and the filesystem model -/

/-- Name of a component, with a dummy value on the parent marker. -/
def compName : Comp → String
  | .normal s => s
  | .parentDir => ""

theorem namesOf_eq_map (cs : List Comp) (h : cs.any isParentDir = false) :
    namesOf cs = cs.map compName := by
  induction cs with
  | nil => rfl
  | cons c rest ih =>
    rw [List.any_cons, Bool.or_eq_false_iff] at h
    cases c with
    | normal s =>
      simp [namesOf, List.filterMap_cons, compName]
      simpa [namesOf] using ih h.2
    | parentDir => simp [isParentDir] at h

theorem any_parent_dropLast (cs : List Comp) (h : cs.any isParentDir = false) :
    cs.dropLast.any isParentDir = false := by
  rw [List.any_eq_false] at h ⊢
  intro x hx
  exact h x (List.dropLast_subset _ hx)

theorem namesOf_dropLast (cs : List Comp) (h : cs.any isParentDir = false) :
    namesOf cs.dropLast = (namesOf cs).dropLast := by
  rw [namesOf_eq_map _ (any_parent_dropLast _ h), namesOf_eq_map _ h]
  exact List.map_dropLast _ _

theorem normAppend_no_parent (cs : List Comp) :
    ∀ (base : List String), cs.any isParentDir = false →
    normAppend base cs = base ++ namesOf cs := by
  induction cs with
  | nil =>
    intro base _
    simp [normAppend, namesOf]
  | cons c rest ih =>
    intro base h
    rw [List.any_cons, Bool.or_eq_false_iff] at h
    cases c with
    | normal s =>
      rw [normAppend, ih _ h.2]
      simp [namesOf, List.filterMap_cons]
    | parentDir => simp [isParentDir] at h

theorem resolveAbs_no_parent (root : List String) (p : RPath)
    (h1 : p.absolute = false) (h2 : contains_parent_dir p = false) :
    resolveAbs root p = root ++ namesOf p.comps := by
  unfold resolveAbs
  rw [h1]
  simpa using normAppend_no_parent p.comps root h2

theorem pathExists_nil (fs : FS) : pathExists fs [] = true := by
  simp [pathExists, isDir]

theorem isPrefixOf_append_self (l t : List String) : l.isPrefixOf (l ++ t) = true := by
  simp [List.isPrefixOf_iff_prefix]

theorem mem_prefixesOf_length (q : List String) (d : List String)
    (hd : d ∈ prefixesOf q) : d.length ≤ q.length := by
  unfold prefixesOf at hd
  obtain ⟨i, _, rfl⟩ := List.mem_map.mp hd
  simp

theorem contains_append_left (l₁ l₂ : List (List String)) (a : List String)
    (h : l₁.contains a = true) : (l₁ ++ l₂).contains a = true := by
  rw [List.contains_eq_any_beq] at h ⊢
  rw [List.any_append, h]
  rfl

/-! ## Helper lemmas on the validator -/

theorem nearestAux_append (fs : FS) (root : List String)
    (hroot : pathExists fs root = true) :
    ∀ (n : Nat) (names : List String), names.length < n →
    ∃ l, nearestAux fs root n (root ++ names) = root ++ l ∧
      pathExists fs (root ++ l) = true := by
  intro n
  induction n with
  | zero =>
    intro names hlt
    exact absurd hlt (Nat.not_lt_zero _)
  | succ n ih =>
    intro names hlt
    by_cases hex : pathExists fs (root ++ names) = true
    · refine ⟨names, ?_, hex⟩
      simp [nearestAux, hex]
    · cases names with
      | nil =>
        exact absurd (by simpa using hroot) hex
      | cons a as =>
        have hstep : nearestAux fs root (n + 1) (root ++ a :: as)
            = nearestAux fs root n ((root ++ a :: as).dropLast) := by
          simp [nearestAux, hex]
        have hdl : (root ++ a :: as).dropLast = root ++ (a :: as).dropLast := by
          simp
        have hlen : (a :: as).dropLast.length < n := by
          simp only [List.length_dropLast, List.length_cons] at hlt ⊢
          omega
        obtain ⟨l, hl1, hl2⟩ := ih ((a :: as).dropLast) hlen
        exact ⟨l, by rw [hstep, hdl, hl1], hl2⟩

theorem nearest_append (fs : FS) (root : List String)
    (hroot : pathExists fs root = true) (names : List String) :
    ∃ l, find_nearest_existing_ancestor fs root (root ++ names) = root ++ l ∧
      pathExists fs (root ++ l) = true := by
  unfold find_nearest_existing_ancestor
  exact nearestAux_append fs root hroot ((root ++ names).length + 1) names (by simp; omega)

theorem canonicalize_path_inside (root : List String) (fs : FS) (rp : RPath)
    (h2 : contains_parent_dir rp = false)
    (hroot : pathExists fs root = true) :
    canonicalize_path root fs (root ++ namesOf rp.comps) rp
      = .ok (root ++ namesOf rp.comps) := by
  by_cases hex : pathExists fs (root ++ namesOf rp.comps) = true
  · unfold canonicalize_path canonicalizeFS
    simp [hex]
  · unfold canonicalize_path
    simp only [hex, Bool.false_eq_true, if_false]
    have hnn : namesOf rp.comps ≠ [] := by
      intro h0
      rw [h0] at hex
      exact hex (by simpa using hroot)
    have hg : (root ++ namesOf rp.comps).getLast?
        = some ((namesOf rp.comps).getLast hnn) := by
      simp [List.getLast?_append, List.getLast?_eq_getLast _ hnn]
    unfold canonicalize_nonexistent_path
    split
    case _ hnone =>
      rw [hg] at hnone
    case _ f hf =>
      rw [hg] at hf
      injection hf with hf
      subst hf
      by_cases hpar : pathExists fs ((root ++ namesOf rp.comps).dropLast) = true
      · have hc : canonicalizeFS fs ((root ++ namesOf rp.comps).dropLast)
            = some ((root ++ namesOf rp.comps).dropLast) := by
          unfold canonicalizeFS
          simp [hpar]
        rw [if_pos hpar, hc]
        have hd := List.dropLast_append_getLast? ((namesOf rp.comps).getLast hnn)
          (Option.mem_def.mpr hg)
        simp [hd]
      · rw [if_neg hpar]
        have hres : resolveAbs root { absolute := false, comps := rp.comps.dropLast }
            = root ++ (namesOf rp.comps).dropLast := by
          rw [resolveAbs_no_parent root _ rfl
            (by simpa [contains_parent_dir] using any_parent_dropLast rp.comps h2)]
          rw [namesOf_dropLast rp.comps h2]
        rw [hres]
        have hfin : (namesOf rp.comps).dropLast ++ [(namesOf rp.comps).getLast hnn]
            = namesOf rp.comps := List.dropLast_append_getLast hnn
        simp [List.append_assoc, hfin]

theorem is_within_workspace_inside (fs : FS) (root names : List String)
    (hroot : pathExists fs root = true) :
    is_within_workspace fs root (root ++ names) root = true := by
  by_cases hex : pathExists fs (root ++ names) = true
  · unfold is_within_workspace
    simp [hex, isPrefixOf_append_self]
  · obtain ⟨l, hl1, hl2⟩ := nearest_append fs root hroot names
    unfold is_within_workspace
    simp only [hex, Bool.false_eq_true, if_false]
    rw [hl1]
    unfold canonicalizeFS
    simp [hl2, isPrefixOf_append_self]

/-- Main validator characterisation: a relative path with no parent-dir
component validates (for write) to the joined path, whenever the workspace
root exists, no matter whether the target exists. -/
theorem validate_path_ok (root : List String) (fs : FS) (p : String)
    (h1 : (parsePath p).absolute = false)
    (h2 : contains_parent_dir (parsePath p) = false)
    (hroot : pathExists fs root = true) :
    validate_path root fs p = .ok (root ++ namesOf (parsePath p).comps) := by
  unfold validate_path
  simp only [h1, h2, Bool.false_eq_true, if_false]
  rw [resolveAbs_no_parent root _ h1 h2]
  rw [canonicalize_path_inside root fs _ h2 hroot]
  have hws : get_canonical_workspace root fs = .ok root := by
    unfold get_canonical_workspace canonicalizeFS
    simp [hroot]
  rw [hws]
  simp [is_within_workspace_inside fs root _ hroot]

/-! ## Claim C2 -/

/-- C2: every relative path string with at least one `..` path component is
rejected by both validate_for_read and validate_for_write with
PathTraversalDetected, on every filesystem state and workspace root — in
particular regardless of whether the path exists and even when it would
canonicalize to a location inside the root — because the structural
component check fires before any canonicalization. -/
theorem claim_C2_dotdot_component_always_traversal
    (root : List String) (fs : FS) (p : String)
    (habs : (parsePath p).absolute = false)
    (hpd : contains_parent_dir (parsePath p) = true) :
    validate_for_read root fs p = .error .pathTraversalDetected ∧
    validate_for_write root fs p = .error .pathTraversalDetected := by
  have hv : validate_path root fs p = .error .pathTraversalDetected := by
    unfold validate_path
    simp [habs, hpd]
  exact ⟨by unfold validate_for_read; rw [hv], hv⟩

/-- Witness for C2 at the spec example `a/../a/b.txt`, which resolves back
inside the workspace yet is rejected, on a filesystem where the workspace
root and the target both exist. -/
theorem claim_C2_witness :
    validate_for_read ["ws"] ⟨[(["ws", "a", "b.txt"], "hi")], [["ws"], ["ws", "a"]]⟩
        "a/../a/b.txt" = .error .pathTraversalDetected ∧
    validate_for_write ["ws"] ⟨[(["ws", "a", "b.txt"], "hi")], [["ws"], ["ws", "a"]]⟩
        "a/../a/b.txt" = .error .pathTraversalDetected :=
  claim_C2_dotdot_component_always_traversal ["ws"]
    ⟨[(["ws", "a", "b.txt"], "hi")], [["ws"], ["ws", "a"]]⟩ "a/../a/b.txt"
    (by decide) (by decide)

/-! ## Claim C9 -/

/-- C9: a relative path with no `..` component whose joined target lies
inside the workspace root (as every such join does in the symlink-free
model) but does not exist is rejected by validate_for_read with
PathNotFound carrying the requested path string — not with
PathTraversalDetected — and only after the other validation steps have
succeeded (validate_path itself returns ok on this input, as
validate_path_ok shows). -/
theorem claim_C9_missing_file_is_path_not_found
    (root : List String) (fs : FS) (p : String)
    (h1 : (parsePath p).absolute = false)
    (h2 : contains_parent_dir (parsePath p) = false)
    (hroot : pathExists fs root = true)
    (hnot : pathExists fs (root ++ namesOf (parsePath p).comps) = false) :
    validate_for_read root fs p = .error (.pathNotFound p) := by
  unfold validate_for_read
  rw [validate_path_ok root fs p h1 h2 hroot]
  simp [hnot]

/-- Witness for C9: reading a missing file inside an existing workspace. -/
theorem claim_C9_witness :
    validate_for_read ["ws"] ⟨[], [["ws"]]⟩ "sub/new.txt"
      = .error (.pathNotFound "sub/new.txt") :=
  claim_C9_missing_file_is_path_not_found ["ws"] ⟨[], [["ws"]]⟩ "sub/new.txt"
    (by decide) (by decide) (by decide) (by decide)

/-! ## Claim C1 -/

/-- C1 (code bug evidence): the write tool does not route its path through
the PathValidator write validation.  At the absolute path
`/outside/evil.txt` — which validate_for_write rejects with
AbsolutePathNotAllowed — execute_write_file reports success and writes the
file at a location that is not inside the workspace root, creating its
parent directory on the way. -/
theorem claim_C1_write_bypasses_validator :
    validate_for_write ["workspace"] ⟨[], [["workspace"]]⟩ "/outside/evil.txt"
      = .error .absolutePathNotAllowed ∧
    (execute_write_file ["workspace"] ⟨[], [["workspace"]]⟩
      ⟨"/outside/evil.txt", "x"⟩).1.success = true ∧
    (execute_write_file ["workspace"] ⟨[], [["workspace"]]⟩
      ⟨"/outside/evil.txt", "x"⟩).2.files = [(["outside", "evil.txt"], "x")] ∧
    (["workspace"] : List String).isPrefixOf ["outside", "evil.txt"] = false := by
  refine ⟨by rfl, by rfl, by rfl, by rfl⟩

/-! ## Claim C5 -/

/-- C5 (code bug evidence): tool results are not a function of a
construction-time workspace root alone.  execute_write_file never
constructs a validator and resolves its relative path against the live
current working directory of the call: the same input, on the same starting
filesystem, writes different files under different working directories, so
the filesystem effect differs while the claim requires identical results
regardless of the working directory at call time. -/
theorem claim_C5_write_depends_on_live_cwd :
    (execute_write_file ["w1"] ⟨[], [["w1"], ["w2"]]⟩ ⟨"a.txt", "hi"⟩).1.success = true ∧
    (execute_write_file ["w2"] ⟨[], [["w1"], ["w2"]]⟩ ⟨"a.txt", "hi"⟩).1.success = true ∧
    (execute_write_file ["w1"] ⟨[], [["w1"], ["w2"]]⟩ ⟨"a.txt", "hi"⟩).2
      ≠ (execute_write_file ["w2"] ⟨[], [["w1"], ["w2"]]⟩ ⟨"a.txt", "hi"⟩).2 := by
  refine ⟨by decide, by decide, by decide⟩

/-! ## Helper lemmas for the write tool -/

theorem isDir_mk (files : List (List String × String)) (dirs : List (List String))
    (t : List String) : isDir ⟨files, dirs⟩ t = (t.isEmpty || dirs.contains t) := rfl

theorem isDir_append_extra (files : List (List String × String)) (fs : FS)
    (extra : List (List String)) (t : List String)
    (h6 : isDir fs t = false)
    (hex : ∀ d ∈ extra, d ∈ prefixesOf t.dropLast) :
    isDir ⟨files, fs.dirs ++ extra⟩ t = false := by
  rw [isDir_mk]
  unfold isDir at h6
  rw [Bool.or_eq_false_iff] at h6 ⊢
  refine ⟨h6.1, ?_⟩
  rw [List.contains_eq_any_beq, List.any_append, Bool.or_eq_false_iff]
  constructor
  · rw [← List.contains_eq_any_beq]
    exact h6.2
  · rw [List.any_eq_false]
    intro d hd hbeq
    have hte : t = d := eq_of_beq hbeq
    subst hte
    have hlen := mem_prefixesOf_length _ _ (hex _ hd)
    have hne : t ≠ [] := by
      intro h0
      subst h0
      simp at h6
    rw [List.length_dropLast] at hlen
    have hpos : 1 ≤ t.length := List.length_pos.mpr hne
    omega

theorem writeBytes_ok (fs1 : FS) (t : List String) (c : String)
    (hdir : isDir fs1 t = false) :
    writeBytes fs1 t c
      = some ⟨(t, c) :: fs1.files.filter (fun kv => !(kv.1 == t)), fs1.dirs⟩ := by
  unfold writeBytes
  simp [hdir]

/-- Behaviour of the write tool on an accepted relative path: parent
directories (some set of prefixes of the target parent) get created, the
file is written at the target joined onto the live working directory, and
the success message reports the content byte length. -/
theorem execute_write_file_ok (root : List String) (fs : FS) (p c : String)
    (h1 : (parsePath p).absolute = false)
    (h2 : contains_parent_dir (parsePath p) = false)
    (h3 : strContainsSub p ".." = false)
    (h5 : (prefixesOf (root ++ namesOf (parsePath p).comps).dropLast).any
        (fun d => isFile fs d) = false)
    (h6 : isDir fs (root ++ namesOf (parsePath p).comps) = false) :
    ∃ extra : List (List String),
      (∀ d ∈ extra, d ∈ prefixesOf (root ++ namesOf (parsePath p).comps).dropLast) ∧
      execute_write_file root fs ⟨p, c⟩ =
        (⟨true, some ("Successfully wrote " ++ toString (utf8Len c) ++ " bytes to " ++ p),
          none⟩,
         ⟨(root ++ namesOf (parsePath p).comps, c) ::
            fs.files.filter (fun kv => !(kv.1 == root ++ namesOf (parsePath p).comps)),
          fs.dirs ++ extra⟩) := by
  have htgt : resolveAbs root (parsePath p) = root ++ namesOf (parsePath p).comps :=
    resolveAbs_no_parent root _ h1 h2
  by_cases hp : 2 ≤ (parsePath p).comps.length
  · refine ⟨(prefixesOf (root ++ namesOf (parsePath p).comps).dropLast).filter
        (fun d => !(fs.dirs.contains d)), ?_, ?_⟩
    · intro d hd
      exact (List.mem_filter.mp hd).1
    · have hcd : create_dir_all fs (root ++ namesOf (parsePath p).comps).dropLast
          = some ⟨fs.files,
              fs.dirs ++ (prefixesOf (root ++ namesOf (parsePath p).comps).dropLast).filter
                (fun d => !(fs.dirs.contains d))⟩ := by
        unfold create_dir_all
        simp [h5]
      have hw := writeBytes_ok
        ⟨fs.files,
          fs.dirs ++ (prefixesOf (root ++ namesOf (parsePath p).comps).dropLast).filter
            (fun d => !(fs.dirs.contains d))⟩
        (root ++ namesOf (parsePath p).comps) c
        (isDir_append_extra _ fs _ _ h6 (fun d hd => (List.mem_filter.mp hd).1))
      simp at hcd hw
      unfold execute_write_file
      simp [h3, htgt, h1, hp, hcd, hw]
  · refine ⟨[], by simp, ?_⟩
    have hw := writeBytes_ok fs (root ++ namesOf (parsePath p).comps) c h6
    simp at hw
    unfold execute_write_file
    simp [h3, htgt, h1, hp, hw]

/-! ## Claim C8 -/

/-- C8 counterexample: the path `a..b.txt` is relative, has no `..` path
component and resolves inside the workspace root, so the claim as stated
promises a successful round trip; but the write tool rejects it through its
textual substring check, nothing is written, and the subsequent read fails
with a path-not-found error. -/
theorem claim_C8_counterexample :
    (parsePath "a..b.txt").absolute = false ∧
    contains_parent_dir (parsePath "a..b.txt") = false ∧
    (execute_write_file ["ws"] ⟨[], [["ws"]]⟩ ⟨"a..b.txt", "hi"⟩).1.success = false ∧
    (execute_write_file ["ws"] ⟨[], [["ws"]]⟩ ⟨"a..b.txt", "hi"⟩).1.error
      = some "Path traversal not allowed" ∧
    execute_read_file ["ws"]
        (execute_write_file ["ws"] ⟨[], [["ws"]]⟩ ⟨"a..b.txt", "hi"⟩).2 ⟨"a..b.txt"⟩
      = ⟨false, none, some "Path not found: a..b.txt"⟩ := by
  refine ⟨by rfl, by rfl, by rfl, by rfl, by rfl⟩

/-- C8 amended: the round trip write-then-read returns the content
unchanged for every content string and every relative path that has no
`..` component and additionally contains no `..` substring (the amendment
forced by the counterexample), resolves inside the workspace root to a
non-directory location whose ancestor chain contains no file, on every
filesystem whose workspace root directory exists. -/
theorem claim_C8_round_trip_amended (root : List String) (fs : FS) (p c : String)
    (h1 : (parsePath p).absolute = false)
    (h2 : contains_parent_dir (parsePath p) = false)
    (h3 : strContainsSub p ".." = false)
    (h4 : fs.dirs.contains root = true)
    (h5 : (prefixesOf (root ++ namesOf (parsePath p).comps).dropLast).any
        (fun d => isFile fs d) = false)
    (h6 : isDir fs (root ++ namesOf (parsePath p).comps) = false) :
    (execute_write_file root fs ⟨p, c⟩).1.success = true ∧
    execute_read_file root (execute_write_file root fs ⟨p, c⟩).2 ⟨p⟩
      = ⟨true, some c, none⟩ := by
  obtain ⟨extra, hmem, heq⟩ := execute_write_file_ok root fs p c h1 h2 h3 h5 h6
  rw [heq]
  refine ⟨rfl, ?_⟩
  have hroot2 : pathExists
      (⟨(root ++ namesOf (parsePath p).comps, c) ::
          fs.files.filter (fun kv => !(kv.1 == root ++ namesOf (parsePath p).comps)),
        fs.dirs ++ extra⟩ : FS) root = true := by
    unfold pathExists
    rw [isDir_mk]
    simp [show root ∈ fs.dirs by simpa using h4]
  have hex2 : pathExists
      (⟨(root ++ namesOf (parsePath p).comps, c) ::
          fs.files.filter (fun kv => !(kv.1 == root ++ namesOf (parsePath p).comps)),
        fs.dirs ++ extra⟩ : FS) (root ++ namesOf (parsePath p).comps) = true := by
    unfold pathExists isFile
    simp
  have hval : validate_for_read root
      (⟨(root ++ namesOf (parsePath p).comps, c) ::
          fs.files.filter (fun kv => !(kv.1 == root ++ namesOf (parsePath p).comps)),
        fs.dirs ++ extra⟩ : FS) p
      = .ok (root ++ namesOf (parsePath p).comps) := by
    unfold validate_for_read
    rw [validate_path_ok root _ p h1 h2 hroot2]
    simp [hex2]
  have hrd : read_to_string
      (⟨(root ++ namesOf (parsePath p).comps, c) ::
          fs.files.filter (fun kv => !(kv.1 == root ++ namesOf (parsePath p).comps)),
        fs.dirs ++ extra⟩ : FS) (root ++ namesOf (parsePath p).comps) = some c := by
    unfold read_to_string
    rw [isDir_append_extra _ fs extra _ h6 hmem]
    simp
  unfold execute_read_file
  simp [hval, hrd]

/-- Witness for the amended C8 round trip at a concrete nested path. -/
theorem claim_C8_witness :
    (execute_write_file ["ws"] ⟨[], [["ws"]]⟩ ⟨"a/b.txt", "hi"⟩).1.success = true ∧
    execute_read_file ["ws"]
        (execute_write_file ["ws"] ⟨[], [["ws"]]⟩ ⟨"a/b.txt", "hi"⟩).2 ⟨"a/b.txt"⟩
      = ⟨true, some "hi", none⟩ :=
  claim_C8_round_trip_amended ["ws"] ⟨[], [["ws"]]⟩ "a/b.txt" "hi"
    (by rfl) (by rfl) (by rfl) (by rfl) (by rfl) (by rfl)

/-! ## Claim C7 -/

/-- C7: ToolRegistry execute is total by construction in this embedding
(every branch of registryExecute and toolExecute returns a payload string,
none raises), and dispatching a name with no registered tool returns the
structured unknown-tool payload, whose error text embeds the unknown name,
leaving the filesystem untouched. -/
theorem claim_C7_unknown_tool_payload (cwd : List String) (fs : FS)
    (name : String) (input : JsonV)
    (h : builtins.find? (fun kv => kv.1 == name) = none) :
    registryExecute builtins cwd fs name input = (unknownToolPayload name, fs) ∧
    ∃ pre suf, unknownToolPayload name = pre ++ name ++ suf := by
  constructor
  · unfold registryExecute
    rw [h]
    rfl
  · exact ⟨"\x7b\"error\": \"Unknown tool: ", "\"\x7d", rfl⟩

/-- Witness for C7 at the name nonexistent_tool of the spec example. -/
theorem claim_C7_witness :
    registryExecute builtins ["ws"] ⟨[], []⟩ "nonexistent_tool" .null
      = (unknownToolPayload "nonexistent_tool", ⟨[], []⟩) ∧
    ∃ pre suf, unknownToolPayload "nonexistent_tool" = pre ++ "nonexistent_tool" ++ suf :=
  claim_C7_unknown_tool_payload ["ws"] ⟨[], []⟩ "nonexistent_tool" .null (by rfl)

/-! ## Helper lemmas on the block-processing loop -/

theorem processBlocksGo_step (ex : ToolExec σ) (acc acc2 : BlockAcc σ)
    (b : ContentBlock) (rest : List ContentBlock)
    (h : processStep ex acc b = some acc2) :
    processBlocksGo ex acc (b :: rest) = processBlocksGo ex acc2 rest := by
  simp only [processBlocksGo, h]

theorem processBlocksGo_crash (ex : ToolExec σ) (acc : BlockAcc σ)
    (b : ContentBlock) (rest : List ContentBlock)
    (h : processStep ex acc b = none) :
    processBlocksGo ex acc (b :: rest) = none := by
  simp only [processBlocksGo, h]

theorem processBlocksGo_eq (ex : ToolExec σ) :
    ∀ (blocks : List ContentBlock) (acc : BlockAcc σ), panicFree blocks = true →
    processBlocksGo ex acc blocks
      = some ⟨stateAfter ex acc.st blocks,
          acc.displays ++ displaysOf blocks,
          acc.toolResults ++ toolResultsOf ex acc.st blocks,
          acc.hasToolUse || blocks.any isToolUseB⟩ := by
  intro blocks
  induction blocks with
  | nil =>
    intro acc _
    simp [processBlocksGo, stateAfter, displaysOf, toolResultsOf]
  | cons b rest ih =>
    intro acc h
    rw [panicFree, List.all_cons, Bool.and_eq_true] at h
    cases b with
    | text t =>
      rw [processBlocksGo_step ex acc { acc with displays := acc.displays ++ [t] }
        (ContentBlock.text t) rest rfl, ih _ h.2]
      simp [stateAfter, displaysOf, toolResultsOf, isToolUseB]
    | thinking t =>
      obtain ⟨d, hd⟩ := Option.isSome_iff_exists.mp h.1
      rw [processBlocksGo_step ex acc { acc with displays := acc.displays ++ [d] }
        (ContentBlock.thinking t) rest (by simp [processStep, hd]), ih _ h.2]
      simp [stateAfter, displaysOf, toolResultsOf, isToolUseB, hd]
    | toolUse id name input =>
      rw [processBlocksGo_step ex acc
        { acc with
          st := (ex acc.st name input).2
          toolResults := acc.toolResults ++ [create_tool_result id (ex acc.st name input).1]
          hasToolUse := true }
        (ContentBlock.toolUse id name input) rest rfl, ih _ h.2]
      simp [stateAfter, displaysOf, toolResultsOf, isToolUseB, create_tool_result]
    | toolResult i cont =>
      rw [processBlocksGo_step ex acc acc (ContentBlock.toolResult i cont) rest rfl, ih _ h.2]
      simp [stateAfter, displaysOf, toolResultsOf, isToolUseB]
    | other ty =>
      rw [processBlocksGo_step ex acc acc (ContentBlock.other ty) rest rfl, ih _ h.2]
      simp [stateAfter, displaysOf, toolResultsOf, isToolUseB]

theorem processBlocks_eq (ex : ToolExec σ) (s : σ) (blocks : List ContentBlock)
    (h : panicFree blocks = true) :
    processBlocks ex s blocks
      = some ⟨stateAfter ex s blocks, displaysOf blocks,
          toolResultsOf ex s blocks, blocks.any isToolUseB⟩ := by
  unfold processBlocks
  simpa using processBlocksGo_eq ex blocks ⟨s, [], [], false⟩ h

theorem panicFree_of_go (ex : ToolExec σ) :
    ∀ (blocks : List ContentBlock) (acc o : BlockAcc σ),
    processBlocksGo ex acc blocks = some o → panicFree blocks = true := by
  intro blocks
  induction blocks with
  | nil =>
    intro acc o _
    rfl
  | cons b rest ih =>
    intro acc o h
    rw [panicFree, List.all_cons, Bool.and_eq_true]
    cases hb : processStep ex acc b with
    | none =>
      rw [processBlocksGo_crash ex acc b rest hb] at h
      exact absurd h (by simp)
    | some acc2 =>
      rw [processBlocksGo_step ex acc acc2 b rest hb] at h
      refine ⟨?_, ih acc2 o h⟩
      cases b with
      | thinking t =>
        cases ht : thinkingDisplay t with
        | none =>
          simp only [processStep, ht] at hb
          exact Option.noConfusion hb
        | some d =>
          simp [ht]
      | text t => rfl
      | toolUse id name input => rfl
      | toolResult i cont => rfl
      | other ty => rfl

theorem toolResultsOf_map_id (ex : ToolExec σ) :
    ∀ (blocks : List ContentBlock) (s : σ),
    (toolResultsOf ex s blocks).map resultIdOf = blocks.filterMap useIdOf := by
  intro blocks
  induction blocks with
  | nil => intro s; rfl
  | cons b rest ih =>
    intro s
    cases b with
    | toolUse id name input =>
      simp [toolResultsOf, useIdOf, create_tool_result, resultIdOf, ih]
    | text t => simp [toolResultsOf, useIdOf, ih]
    | thinking t => simp [toolResultsOf, useIdOf, ih]
    | toolResult i cont => simp [toolResultsOf, useIdOf, ih]
    | other ty => simp [toolResultsOf, useIdOf, ih]

/-! ## Claim C4 -/

/-- C4: whenever the block loop completes on a model response, the pending
tool-result list contains exactly one tool_result per tool_use block — in
the same order as the tool_use blocks appear in the response content — each
carrying the id of the block that produced it and the output of the
dispatched registry execution, and the has_tool_use flag records whether
any tool_use block was present. -/
theorem claim_C4_tool_result_correlation (ex : ToolExec σ) (s : σ)
    (blocks : List ContentBlock) (o : BlockAcc σ)
    (h : processBlocks ex s blocks = some o) :
    o.toolResults = toolResultsOf ex s blocks ∧
    o.toolResults.map resultIdOf = blocks.filterMap useIdOf ∧
    o.hasToolUse = blocks.any isToolUseB := by
  have hpf : panicFree blocks = true := panicFree_of_go ex blocks ⟨s, [], [], false⟩ o h
  rw [processBlocks_eq ex s blocks hpf] at h
  have ho : o = ⟨stateAfter ex s blocks, displaysOf blocks,
      toolResultsOf ex s blocks, blocks.any isToolUseB⟩ := by
    injection h with h
    exact h.symm
  subst ho
  exact ⟨rfl, toolResultsOf_map_id ex blocks s, rfl⟩

/-- Witness for C4 on a response mixing text and two tool_use blocks. -/
theorem claim_C4_witness :
    ([ContentBlock.toolResult "a" "ok", ContentBlock.toolResult "b" "ok"]
        : List ContentBlock)
      = toolResultsOf exUnit () [ContentBlock.text "x",
          ContentBlock.toolUse "a" "read_file" JsonV.null,
          ContentBlock.toolUse "b" "write_file" JsonV.null] ∧
    ([ContentBlock.toolResult "a" "ok", ContentBlock.toolResult "b" "ok"]
        : List ContentBlock).map resultIdOf
      = [ContentBlock.text "x",
          ContentBlock.toolUse "a" "read_file" JsonV.null,
          ContentBlock.toolUse "b" "write_file" JsonV.null].filterMap useIdOf ∧
    true = [ContentBlock.text "x",
        ContentBlock.toolUse "a" "read_file" JsonV.null,
        ContentBlock.toolUse "b" "write_file" JsonV.null].any isToolUseB :=
  claim_C4_tool_result_correlation exUnit ()
    [ContentBlock.text "x",
      ContentBlock.toolUse "a" "read_file" JsonV.null,
      ContentBlock.toolUse "b" "write_file" JsonV.null]
    ⟨(), ["x"], [ContentBlock.toolResult "a" "ok", ContentBlock.toolResult "b" "ok"], true⟩
    rfl

/-! ## Claim C6 -/

/-- C6: within one send_message call, a parsed response with zero tool_use
blocks ends the loop immediately after that single model-service call (one
call made, history extended by the user and assistant messages only), and a
response with at least one tool_use block appends the assistant and
tool-result messages and re-enters the loop, issuing exactly one further
model-service call for that round (total calls are one plus those of the
continuation). -/
theorem claim_C6_round_structure (ex : ToolExec σ) (script : List ModelOutcome)
    (s : σ) (pre : List Message) (input : String) (blocks : List ContentBlock)
    (o : BlockAcc σ) (h : processBlocks ex s blocks = some o) :
    (o.hasToolUse = false →
      send_message ex (.success blocks :: script) s pre input
        = (.ok (pre ++ [userTextMsg input, assistantMsg blocks]), o.st, 1)) ∧
    (o.hasToolUse = true →
      send_message ex (.success blocks :: script) s pre input
        = ((sendLoop ex script o.st
              (pre ++ [userTextMsg input, assistantMsg blocks,
                toolResultsMsg o.toolResults])).1,
           (sendLoop ex script o.st
              (pre ++ [userTextMsg input, assistantMsg blocks,
                toolResultsMsg o.toolResults])).2.1,
           (sendLoop ex script o.st
              (pre ++ [userTextMsg input, assistantMsg blocks,
                toolResultsMsg o.toolResults])).2.2 + 1)) := by
  constructor
  · intro hflag
    simp [send_message, sendLoop, h, hflag]
  · intro hflag
    simp [send_message, sendLoop, h, hflag]

/-- Witness for C6: a text-only response ends after one call; a tool-use
response makes a second call which then ends the turn. -/
theorem claim_C6_witness :
    send_message exUnit [ModelOutcome.success [ContentBlock.text "hello"]] () [] "q"
      = (.ok [userTextMsg "q", assistantMsg [ContentBlock.text "hello"]], (), 1) ∧
    send_message exUnit
        [ModelOutcome.success [ContentBlock.toolUse "t1" "x" JsonV.null],
         ModelOutcome.success [ContentBlock.text "done"]] () [] "q"
      = (.ok [userTextMsg "q",
            assistantMsg [ContentBlock.toolUse "t1" "x" JsonV.null],
            toolResultsMsg [ContentBlock.toolResult "t1" "ok"],
            assistantMsg [ContentBlock.text "done"]], (), 2) := by
  constructor
  · exact (claim_C6_round_structure exUnit [] () [] "q" [ContentBlock.text "hello"]
      ⟨(), ["hello"], [], false⟩ rfl).1 rfl
  · exact (claim_C6_round_structure exUnit
      [ModelOutcome.success [ContentBlock.text "done"]] () [] "q"
      [ContentBlock.toolUse "t1" "x" JsonV.null]
      ⟨(), [], [ContentBlock.toolResult "t1" "ok"], true⟩ rfl).2 rfl

/-! ## Claim C3 -/

theorem sendLoop_rounds (ex : ToolExec σ) (fail : ModelOutcome)
    (rest : List ModelOutcome) (hfail : failRollsBack fail = true) :
    ∀ (bss : List (List ContentBlock)) (s : σ) (hist : List Message),
    (∀ bs ∈ bss, panicFree bs = true ∧ bs.any isToolUseB = true) →
    sendLoop ex (bss.map .success ++ fail :: rest) s hist
      = (.ok ((hist ++ okRounds ex s bss).dropLast), stateAfterRounds ex s bss,
         bss.length + 1) := by
  intro bss
  induction bss with
  | nil =>
    intro s hist _
    cases fail with
    | httpErr st txt => simp [sendLoop, okRounds, stateAfterRounds]
    | malformed body =>
      unfold failRollsBack at hfail
      obtain ⟨d, hd⟩ := Option.isSome_iff_exists.mp hfail
      simp [sendLoop, hd, okRounds, stateAfterRounds]
    | transportErr => simp [failRollsBack] at hfail
    | success bs => simp [failRollsBack] at hfail
  | cons bs bss ih =>
    intro s hist h
    have hbs := h bs (by simp)
    have hrest : ∀ b ∈ bss, panicFree b = true ∧ b.any isToolUseB = true :=
      fun b hb => h b (by simp [hb])
    have hpb := processBlocks_eq ex s bs hbs.1
    simp only [List.map_cons, List.cons_append]
    rw [show sendLoop ex (.success bs :: (bss.map .success ++ fail :: rest)) s hist
        = (match processBlocks ex s bs with
          | none => (.crashed hist, s, 1)
          | some acc =>
            if acc.hasToolUse then
              ((sendLoop ex (bss.map .success ++ fail :: rest) acc.st
                  ((hist ++ [assistantMsg bs]) ++ [toolResultsMsg acc.toolResults])).1,
               (sendLoop ex (bss.map .success ++ fail :: rest) acc.st
                  ((hist ++ [assistantMsg bs]) ++ [toolResultsMsg acc.toolResults])).2.1,
               (sendLoop ex (bss.map .success ++ fail :: rest) acc.st
                  ((hist ++ [assistantMsg bs]) ++ [toolResultsMsg acc.toolResults])).2.2 + 1)
            else (.ok (hist ++ [assistantMsg bs]), acc.st, 1)) from rfl]
    rw [hpb]
    simp only [hbs.2, if_true]
    rw [ih _ _ hrest]
    simp [okRounds, stateAfterRounds, List.append_assoc]

theorem okRounds_length (ex : ToolExec σ) :
    ∀ (bss : List (List ContentBlock)) (s : σ),
    (okRounds ex s bss).length = 2 * bss.length := by
  intro bss
  induction bss with
  | nil => intro s; rfl
  | cons bs bss ih =>
    intro s
    simp [okRounds, ih]
    omega

theorem usersAnswered_okRounds (ex : ToolExec σ) :
    ∀ (bss : List (List ContentBlock)) (s : σ) (c : MessageContent),
    usersAnswered ((Message.mk "user" c :: okRounds ex s bss).dropLast) = true := by
  intro bss
  induction bss with
  | nil =>
    intro s c
    rfl
  | cons bs bss ih =>
    intro s c
    show usersAnswered ((Message.mk "user" c :: assistantMsg bs ::
      toolResultsMsg (toolResultsOf ex s bs) :: okRounds ex (stateAfter ex s bs) bss).dropLast)
      = true
    rw [show (Message.mk "user" c :: assistantMsg bs ::
        toolResultsMsg (toolResultsOf ex s bs) :: okRounds ex (stateAfter ex s bs) bss).dropLast
        = Message.mk "user" c :: assistantMsg bs ::
          (toolResultsMsg (toolResultsOf ex s bs)
            :: okRounds ex (stateAfter ex s bs) bss).dropLast from rfl]
    have hrec := ih (stateAfter ex s bs) (.blocks (toolResultsOf ex s bs))
    simp [usersAnswered, assistantMsg, toolResultsMsg] at hrec ⊢
    exact hrec

/-- C3 counterexample: a malformed response body of 167 CJK characters has
501 UTF-8 bytes, so the debug print of its first 500 bytes cuts inside a
character and the source panics before the rollback pop: send_message
crashes, the just-appended user message stays in history as an orphaned
user turn, and no Ok is returned. -/
theorem claim_C3_counterexample :
    utf8Len cjk167 = 501 ∧
    displaySlice cjk167 500 = none ∧
    send_message exUnit [ModelOutcome.malformed cjk167] () [] "hi"
      = (.crashed [userTextMsg "hi"], (), 1) := by
  refine ⟨by rfl, by rfl, by rfl⟩

/-- C3 amended: for a failing model-service call that is a non-success
status, or a malformed body whose min(len, 500)-byte debug slice falls on a
character boundary (the amendment forced by the counterexample), at any
round of the tool-use loop: send_message returns Ok (no error propagates),
exactly the just-appended user message is removed — the final history is
the accumulated history with its last entry dropped — so the history length
equals its pre-call value plus two per completed round, and the suffix
appended by this call contains no orphaned user turn: every user message in
it is immediately followed by an assistant message. -/
theorem claim_C3_failed_call_rolls_back (ex : ToolExec σ) (fail : ModelOutcome)
    (rest : List ModelOutcome) (bss : List (List ContentBlock)) (s : σ)
    (pre : List Message) (input : String)
    (hbss : ∀ bs ∈ bss, panicFree bs = true ∧ bs.any isToolUseB = true)
    (hfail : failRollsBack fail = true) :
    send_message ex (bss.map .success ++ fail :: rest) s pre input
      = (.ok ((pre ++ userTextMsg input :: okRounds ex s bss).dropLast),
         stateAfterRounds ex s bss, bss.length + 1) ∧
    ((pre ++ userTextMsg input :: okRounds ex s bss).dropLast).length
      = pre.length + 2 * bss.length ∧
    usersAnswered ((userTextMsg input :: okRounds ex s bss).dropLast) = true := by
  refine ⟨?_, ?_, ?_⟩
  · unfold send_message
    rw [sendLoop_rounds ex fail rest hfail bss s _ hbss]
    simp
  · rw [List.length_dropLast]
    simp [okRounds_length]
  · exact usersAnswered_okRounds ex bss s _

/-- Witness for the amended C3: a first tool-use round succeeds, the second
model-service call returns a non-success status, and the tool-result user
message is rolled back, leaving the user turn answered by the stored
assistant message. -/
theorem claim_C3_witness :
    send_message exUnit
        [ModelOutcome.success [ContentBlock.toolUse "t1" "read_file" JsonV.null],
         ModelOutcome.httpErr 500 "boom"] () [] "hi"
      = (.ok [userTextMsg "hi",
            assistantMsg [ContentBlock.toolUse "t1" "read_file" JsonV.null]], (), 2) ∧
    ([userTextMsg "hi",
        assistantMsg [ContentBlock.toolUse "t1" "read_file" JsonV.null]]
        : List Message).length = 0 + 2 * 1 ∧
    usersAnswered [userTextMsg "hi",
        assistantMsg [ContentBlock.toolUse "t1" "read_file" JsonV.null]] = true := by
  have h := claim_C3_failed_call_rolls_back exUnit (.httpErr 500 "boom") []
    [[ContentBlock.toolUse "t1" "read_file" JsonV.null]] () [] "hi"
    (by
      intro bs hb
      simp at hb
      subst hb
      exact ⟨rfl, rfl⟩)
    rfl
  exact h

/-! ## Claim C10 -/

/-- C10 (code bug evidence): the thinking display is a byte slice, not a
character truncation.  On a thinking text of 67 CJK characters (201 UTF-8
bytes, so longer than 200), byte offset 200 is not a character boundary:
the slice `&thinking[..200]` panics, the block loop aborts, and
send_message crashes before anything — including the full thinking text —
is stored in history, while the source comment and the claim promise the
first 200 characters and no failure. -/
theorem claim_C10_thinking_truncation_panics :
    utf8Len cjk67 = 201 ∧
    thinkingDisplay cjk67 = none ∧
    processBlocks exUnit () [ContentBlock.thinking cjk67] = none ∧
    send_message exUnit [ModelOutcome.success [ContentBlock.thinking cjk67]] () [] "q"
      = (.crashed [userTextMsg "q"], (), 1) := by
  refine ⟨by rfl, by rfl, by rfl, by rfl⟩

end Mentat
